import Mathlib

/-!
Verification of the Acrophobia round engine (Round, NormalRound, FaceOffRound,
FaceOff, AcroGame).  The JavaScript source is shallowly embedded: user ids are
`Nat` (the numeric ids AcroGame assigns), JS objects keyed by ids are
association lists, JS `null`/`undefined`-bearing number slots are `Option Int`
(`none` models `NaN`), and timestamps are a total function `Nat → Nat`.
-/

namespace Acro

/-! ### JS primitives -/

/-- Whitespace characters recognised by the JS `\s` class (ASCII part: TAB, LF,
VT, FF, CR, space).  The game only ever sees IRC text, and the claims never
hinge on exotic Unicode whitespace. -/
def isWsChar (c : Char) : Bool :=
  c.toNat = 9 || c.toNat = 10 || c.toNat = 11 || c.toNat = 12 || c.toNat = 13 || c.toNat = 32

/-- Decimal digit test. -/
def isDigitChar (c : Char) : Bool := decide ('0' ≤ c ∧ c ≤ '9')

/-- Hex digit value, as consumed by `parseInt` after a `0x` prefix. -/
def hexVal (c : Char) : Option Nat :=
  if '0' ≤ c ∧ c ≤ '9' then some (c.toNat - 48)
  else if 'a' ≤ c ∧ c ≤ 'f' then some (c.toNat - 87)
  else if 'A' ≤ c ∧ c ≤ 'F' then some (c.toNat - 55)
  else none

/-- Fold an already-validated digit list into a number. -/
def digitsToNat (base : Nat) (l : List Nat) : Nat :=
  l.foldl (fun a d => a * base + d) 0

/-- JS `parseInt(str)` with no radix argument: skip leading whitespace, read an
optional sign, then either a `0x`/`0X`-prefixed hex numeral or a decimal digit
prefix; trailing garbage is ignored; `none` models the `NaN` result when no
digit is consumed. -/
def jsParseInt (s : String) : Option Int :=
  let l := s.data.dropWhile isWsChar
  let signAndRest : Int × List Char :=
    match l with
    | c :: rest => if c = '-' then (-1, rest) else if c = '+' then (1, rest) else (1, l)
    | [] => (1, l)
  let sign := signAndRest.1
  let body := signAndRest.2
  let hexTail : Option (List Char) :=
    match body with
    | c0 :: c1 :: rest =>
        if c0 = '0' ∧ (c1 = 'x' ∨ c1 = 'X') then some rest else none
    | _ => none
  match hexTail with
  | some rest =>
      let ds := (rest.takeWhile (fun c => (hexVal c).isSome)).filterMap hexVal
      if ds = [] then none else some (sign * (digitsToNat 16 ds : Int))
  | none =>
      let ds := (body.takeWhile isDigitChar).map (fun c => c.toNat - 48)
      if ds = [] then none else some (sign * (digitsToNat 10 ds : Int))

/-! ### Association-list helpers

JS objects keyed by numeric user ids are modelled as association lists.  An
assignment `obj[k] = v` updates the entry in place when the key exists and
appends otherwise.  (V8 iterates integer-like keys in ascending numeric order,
not insertion order; every claim below is insensitive to the iteration order
of these maps, so the association list's order is not load-bearing.) -/

def alookup {κ α : Type} [DecidableEq κ] : List (κ × α) → κ → Option α
  | [], _ => none
  | e :: rest, k => if e.1 = k then some e.2 else alookup rest k

def ahasKey {κ α : Type} [DecidableEq κ] : List (κ × α) → κ → Bool
  | [], _ => false
  | e :: rest, k => if e.1 = k then true else ahasKey rest k

def aset {κ α : Type} [DecidableEq κ] : List (κ × α) → κ → α → List (κ × α)
  | [], k, v => [(k, v)]
  | e :: rest, k, v => if e.1 = k then (k, v) :: rest else e :: aset rest k v

/-- JS `delete obj[k]`: the key's entry is removed, all others keep their
relative order. -/
def adel {κ α : Type} [DecidableEq κ] (m : List (κ × α)) (k : κ) : List (κ × α) :=
  m.filter (fun e => decide (e.1 ≠ k))

/-! ### Round (src Round.js) -/

/-- The three phase constants `PHASE_STOPPED = 0`, `PHASE_ACRO = 1`,
`PHASE_VOTE = 2`. -/
inductive Phase where
  | stopped
  | acroOpen
  | voteOpen
deriving DecidableEq

/-- State of a `Round`: the generated acronym, the phase flag, `_phrases`
(userId → stored phrase), `_submitTimes` (modelled as a total function,
updated pointwise exactly where the source assigns), `_userOrder` (the
shuffled submitter permutation) and `_votes` (voter → target). -/
structure RoundState where
  acro : String
  phase : Phase
  phrases : List (Nat × String)
  submitTimes : Nat → Nat
  userOrder : List Nat
  votes : List (Nat × Nat)

/-- Events a `Round` emits in response to `submitPhrase`/`submitVote`. -/
inductive RoundSignal where
  | phraseAccepted (userId : Nat) (first : Bool)
  | phraseRejected (userId : Nat) (acro : String)
  | voteAccepted (userId : Nat) (first : Bool)
  | voteRejected (userId : Nat) (reason : String)
deriving DecidableEq

/-! #### submitPhrase: text normalization

`Round.submitPhrase` normalizes the input with
`.toUpperCase().replace(/[^A-Z0-9'\-]/g,' ').replace(/\s+/g,' ')
.replace(/(?:^\s|\s$)/g,'').split(' ')` and concatenates `word[0]` of each
token. -/

/-- The character class `[A-Z0-9'\-]`, by code point: `A`-`Z` is 65-90,
`0`-`9` is 48-57, the apostrophe is 39 and `-` is 45. -/
def isAllowedChar (c : Char) : Bool :=
  decide ((65 ≤ c.toNat ∧ c.toNat ≤ 90) ∨ (48 ≤ c.toNat ∧ c.toNat ≤ 57) ∨
    c.toNat = 39 ∨ c.toNat = 45)

/-- `.replace(/\s+/g, ' ')`.  At the point this runs every whitespace
character has already been replaced by `' '` (it is outside `[A-Z0-9'\-]`),
so collapsing runs of `' '` is exact.  The boolean records whether the
previous character was part of a space run. -/
def collapseWs : Bool → List Char → List Char
  | _, [] => []
  | inRun, c :: rest =>
      if c = ' ' then
        if inRun then collapseWs true rest else ' ' :: collapseWs true rest
      else c :: collapseWs false rest

/-- The `^\s` half of the trim regex: remove one leading whitespace char. -/
def dropLeadWs (l : List Char) : List Char :=
  match l with
  | c :: rest => if isWsChar c then rest else l
  | [] => []

/-- The `\s$` half of the trim regex: remove one trailing whitespace char. -/
def dropTrailWs (l : List Char) : List Char :=
  match l.reverse with
  | c :: rest => if isWsChar c then rest.reverse else l
  | [] => l

/-- `.replace(/(?:^\s|\s$)/g, '')`: removes ONE leading and ONE trailing
whitespace character (the regex is anchored, not `trim`). -/
def trimOneWs (l : List Char) : List Char :=
  dropTrailWs (dropLeadWs l)

/-- Adjacent characters are not both spaces — the shape `collapseWs`
guarantees. -/
def noTwoSp (a b : Char) : Prop := ¬ (a = ' ' ∧ b = ' ')

/-- `.split(' ')`: splits on every single space; `"".split(' ')` is `[""]`. -/
def splitSp : List Char → List (List Char)
  | [] => [[]]
  | c :: rest =>
      match splitSp rest with
      | [] => [[]]
      | w :: ws => if c = ' ' then [] :: w :: ws else (c :: w) :: ws

/-- `words.forEach(word => acro += word[0])`.  For the empty token (only
produced when the normalized text is empty) `word[0]` is `undefined` and
`'' + undefined` is the string `"undefined"`. -/
def jsAcroOf : List (List Char) → List Char
  | [] => []
  | w :: ws => (match w with | c :: _ => [c] | [] => "undefined".data) ++ jsAcroOf ws

/-- The normalization pipeline up to `split`: uppercase, crush characters
outside `[A-Z0-9'\-]` to spaces, collapse space runs, strip the single
leading/trailing space.  `Char.toUpper` matches JS `toUpperCase` on the ASCII
range, the only characters `_makeAcro` acronyms can contain. -/
def normalizeText (s : String) : List Char :=
  trimOneWs (collapseWs false ((s.data.map Char.toUpper).map
    (fun c => if isAllowedChar c then c else ' ')))

/-- The acronym `submitPhrase` computes from an input. -/
def jsAcro (s : String) : String := ⟨jsAcroOf (splitSp (normalizeText s))⟩

/-- The stored phrase: `phrase.replace(/(?:^\s|\s$)/g, '')` applied to the
raw input. -/
def trimOneStr (s : String) : String := ⟨trimOneWs s.data⟩

/-- `Round.submitPhrase(userId, phrase)` at time `now`.  The `first` flag is
JS `!this._phrases[userId]`: an accepted phrase always stores a nonempty
string (its acronym equals the round's nonempty acronym), so truthiness of
the stored entry coincides with key presence. -/
def submitPhrase (st : RoundState) (userId : Nat) (phrase : String) (now : Nat) :
    RoundState × Option RoundSignal :=
  if st.phase = Phase.acroOpen then
    let acro := jsAcro phrase
    if acro = st.acro then
      ({ st with
          phrases := aset st.phrases userId (trimOneStr phrase),
          submitTimes := fun u => if u = userId then now else st.submitTimes u },
        some (.phraseAccepted userId (!ahasKey st.phrases userId)))
    else (st, some (.phraseRejected userId acro))
  else (st, none)

/-- `Round.submitVote(userId, voteStr)`.  `vote = parseInt(voteStr) - 1`; a
`NaN` parse fails both range comparisons, hence "invalid".  The stored targets
are elements of `_userOrder` (strings from `Object.keys`, here `Nat`); they
are nonempty strings in JS, so `!this._votes[userId]` coincides with key
presence. -/
def submitVote (st : RoundState) (userId : Nat) (voteStr : String) :
    RoundState × Option RoundSignal :=
  if st.phase = Phase.voteOpen then
    match jsParseInt voteStr with
    | none => (st, some (.voteRejected userId "invalid"))
    | some n =>
        let vote : Int := n - 1
        if 0 ≤ vote ∧ vote < (st.userOrder.length : Int) then
          let target := st.userOrder.getD vote.toNat 0
          if userId ≠ target then
            ({ st with votes := aset st.votes userId target },
              some (.voteAccepted userId (!ahasKey st.votes userId)))
          else (st, some (.voteRejected userId "self"))
        else (st, some (.voteRejected userId "invalid"))
  else (st, none)

/-! #### Countdown (`Round._countdown` / `Round._emitMilestones`)

`_countdown` builds the milestone array `[1, 2, 3]`, pushes `10` when
`floor(secs/2) > 15`, then pushes `floor(secs/2)` — with no deduplication and
no sort.  `_emitMilestones` pops from the END of the array: it waits
`last - cur` seconds (as passed to `setTimeout`; a negative value is clamped
to an immediate fire by JS, but the *scheduled* delay recorded here is the
signed difference), emits `cur`, recurses with `last := cur`, and when the
array is empty waits the final `last` seconds and completes. -/

def milestoneList (secs : Nat) : List Nat :=
  let half := secs / 2
  [1, 2, 3] ++ (if half > 15 then [10] else []) ++ [half]

/-- The recursion of `_emitMilestones`, consuming the (reversed) milestone
array: returns the list of `(scheduled delay, emitted milestone)` pairs in
emission order, and the final wait before the completion callback. -/
def emitFromEnd : Int → List Nat → List (Int × Nat) × Int
  | last, [] => ([], last)
  | last, cur :: rest =>
      let tail := emitFromEnd (cur : Int) rest
      ((last - (cur : Int), cur) :: tail.1, tail.2)

/-- Full countdown schedule for a duration of `secs` seconds. -/
def countdownSchedule (secs : Nat) : List (Int × Nat) × Int :=
  emitFromEnd (secs : Int) (milestoneList secs).reverse

/-- The milestone values in emission order. -/
def countdownEmissions (secs : Nat) : List Nat :=
  (countdownSchedule secs).1.map Prod.snd

/-- The scheduled inter-milestone delays in order. -/
def countdownDelays (secs : Nat) : List Int :=
  (countdownSchedule secs).1.map Prod.fst

/-! #### `Round._getResults` -/

/-- The multiset of vote targets (the values of `_votes`). -/
def targetsOf (votes : List (Nat × Nat)) : List Nat := votes.map Prod.snd

/-- `usersToVoteCount[u]`: the number of votes user `u` received (0 when the
key is absent from the JS object). -/
def voteCount (votes : List (Nat × Nat)) (u : Nat) : Nat :=
  (targetsOf votes).count u

/-- `Object.keys(usersToVoteCount)`: the distinct vote receivers.  (V8 lists
these integer-like keys in ascending numeric order; `dedup` keeps first
occurrences instead.  The two lists are permutations of each other, and the
subsequent comparator sort makes the difference observable only between
entries the comparator cannot distinguish, which no claim depends on.) -/
def tallyKeys (votes : List (Nat × Nat)) : List Nat :=
  (targetsOf votes).dedup

/-- The comparator `voteOrder` is sorted with: vote count descending, ties by
submission timestamp ascending.  `rankRel a b` holds when `a` may come before
`b`. -/
def rankRel (st : RoundState) (a b : Nat) : Prop :=
  voteCount st.votes b < voteCount st.votes a ∨
    (voteCount st.votes b = voteCount st.votes a ∧ st.submitTimes a ≤ st.submitTimes b)

instance (st : RoundState) : DecidableRel (rankRel st) := fun a b => by
  unfold rankRel; infer_instance

instance (st : RoundState) : IsTotal Nat (rankRel st) where
  total a b := by unfold rankRel; omega

instance (st : RoundState) : IsTrans Nat (rankRel st) where
  trans a b c hab hbc := by unfold rankRel at *; omega

/-- `Object.keys(usersToVoteCount).sort(comparator)`. -/
def voteOrder (st : RoundState) : List Nat :=
  List.insertionSort (rankRel st) (tallyKeys st.votes)

/-- `usersToVoters[w]`: the voters who voted for `w`, in vote-map order. -/
def votersFor (st : RoundState) (w : Nat) : List Nat :=
  (st.votes.filter (fun e => decide (e.2 = w))).map Prod.fst

/-- `fastest`: the submitter with the strictly smallest `_submitTimes` entry,
scanning `_phrases` in key order (`undefined < Infinity` never fires, and the
strict `<` keeps the earlier-scanned user on timestamp ties). -/
def fastestOf (st : RoundState) : Option Nat :=
  (st.phrases.map Prod.fst).foldl
    (fun acc u =>
      match acc with
      | none => some u
      | some f => if st.submitTimes u < st.submitTimes f then some u else some f)
    none

/-- One step of the `fastestWithVote` scan: a submitter only displaces the
tracked best when they received a vote and submitted strictly earlier. -/
def fwvStep (st : RoundState) (acc : Option Nat) (u : Nat) : Option Nat :=
  if 0 < voteCount st.votes u then
    match acc with
    | none => some u
    | some f => if st.submitTimes u < st.submitTimes f then some u else some f
  else acc

/-- `fastestWithVote`: same scan restricted to submitters whose
`usersToVoteCount` entry is truthy, i.e. who received at least one vote. -/
def fastestWithVoteOf (st : RoundState) : Option Nat :=
  (st.phrases.map Prod.fst).foldl (fwvStep st) none

/-- `nonVoters`: submitters without an own entry in `_votes`. -/
def nonVotersOf (st : RoundState) : List Nat :=
  (st.phrases.map Prod.fst).filter (fun u => !ahasKey st.votes u)

/-- The result object of `Round._getResults`. -/
structure RoundResults where
  winner : Option Nat
  tie : Option (List Nat)
  fastest : Option Nat
  fastestWithVote : Option Nat
  topVoters : List Nat
  nonVoters : List Nat
  acroVotes : List (Nat × Nat)
deriving DecidableEq

/-- `Round._getResults()`: `winner = voteOrder[0] || null`; the `tie` array is
the longest prefix of `voteOrder` whose vote counts equal the winner's, and is
exposed only when longer than 1. -/
def getResults (st : RoundState) : RoundResults :=
  let ord := voteOrder st
  let winner := ord.head?
  let tieList := match winner with
    | none => []
    | some w => ord.takeWhile (fun u => decide (voteCount st.votes u = voteCount st.votes w))
  { winner := winner
    tie := if tieList.length > 1 then some tieList else none
    fastest := fastestOf st
    fastestWithVote := fastestWithVoteOf st
    topVoters := match winner with | some w => votersFor st w | none => []
    nonVoters := nonVotersOf st
    acroVotes := (tallyKeys st.votes).map (fun u => (u, voteCount st.votes u)) }

/-! ### NormalRound._getPoints (src NormalRound.js)

The points object maps JS keys to JS numbers.  Keys are `Option Nat`:
`some u` is the (stringified) user id `u`, and `none` is the string key
`"null"` that `points[res.fastestWithVote]` writes when `fastestWithVote` is
`null`.  Values are `Option Int` with `none` modelling `NaN` (`undefined + x`
on a key created by `+=`). -/

/-- JS `points[k] += x` on a present entry: number + x, `NaN + x = NaN`. -/
def jsAddNum : Option Int → Int → Option Int
  | some v, x => some (v + x)
  | none, _ => none

/-- JS `points[k] += x`: updates a present entry with `jsAddNum`; an absent
key gets `undefined + x = NaN`. -/
def addToEntry : List (Option Nat × Option Int) → Option Nat → Int →
    List (Option Nat × Option Int)
  | [], k, _ => [(k, none)]
  | e :: rest, k, x => if e.1 = k then (k, jsAddNum e.2 x) :: rest else e :: addToEntry rest k x

/-- JS `(points[voter] || 0)`: `undefined`, `NaN` and `0` all read as 0. -/
def getOrZero (m : List (Option Nat × Option Int)) (k : Option Nat) : Int :=
  match alookup m k with
  | some (some v) => v
  | _ => 0

/-- The bonus constants `_getPoints` consumes from the round options. -/
structure PointOpts where
  pointsFastestWithVote : Int
  numLetters : Int
  pointsVoteForWinner : Int

/-- The copy of `acroVotes` that seeds the points object. -/
def basePoints (res : RoundResults) : List (Option Nat × Option Int) :=
  res.acroVotes.map (fun e => ((some e.1 : Option Nat), (some (e.2 : Int) : Option Int)))

/-- One top-voter step:
`points[voter] = (points[voter] || 0) + pointsVoteForWinner`. -/
def voterBonusStep (pv : Int) (m : List (Option Nat × Option Int)) (v : Nat) :
    List (Option Nat × Option Int) :=
  aset m (some v) (some (getOrZero m (some v) + pv))

/-- `_getPoints` before the final nonVoters loop: copy `acroVotes`, then
`points[res.fastestWithVote] += pointsFastestWithVote`, then
`points[res.winner] += numLetters`, then the top-voter bonuses. -/
def pointsBeforeForfeit (opts : PointOpts) (res : RoundResults) :
    List (Option Nat × Option Int) :=
  res.topVoters.foldl (voterBonusStep opts.pointsVoteForWinner)
    (addToEntry (addToEntry (basePoints res) res.fastestWithVote opts.pointsFastestWithVote)
      res.winner opts.numLetters)

/-- One forfeiture step: `if (points[nonVoter]) points[nonVoter] = 0` — only
a present, non-`NaN`, nonzero entry is truthy and gets zeroed. -/
def forfeitStep (m : List (Option Nat × Option Int)) (u : Nat) :
    List (Option Nat × Option Int) :=
  match alookup m (some u) with
  | some (some v) => if v ≠ 0 then aset m (some u) (some 0) else m
  | _ => m

/-- The final loop of `_getPoints` over `res.nonVoters`. -/
def forfeitNonVoters (nvs : List Nat) (m : List (Option Nat × Option Int)) :
    List (Option Nat × Option Int) :=
  nvs.foldl forfeitStep m

/-- `NormalRound._getPoints(res)`. -/
def getPoints (opts : PointOpts) (res : RoundResults) : List (Option Nat × Option Int) :=
  forfeitNonVoters res.nonVoters (pointsBeforeForfeit opts res)

/-! ### FaceOffRound.startVote (src FaceOffRound.js) -/

/-- A JS value that is either `undefined`, `null`, or a user id — the type of
the `fastest` argument handed to the `startVote` callback. -/
inductive JsVal where
  | undef
  | null
  | uid (u : Nat)
deriving DecidableEq

/-- The `fastest !== null` test in `FaceOff._startVoteRound` (true for
`undefined`!). -/
def jsValNotNull : JsVal → Bool
  | .null => false
  | _ => true

/-- The argument triple `(err, points, fastest)` a `FaceOffRound.startVote`
callback receives: `err` is `some ()` when a truthy object was passed in the
error slot, `points` is `none` for JS `null`. -/
structure FoCbArgs where
  err : Option Unit
  points : Option (List (Nat × Int))
  fastest : JsVal
deriving DecidableEq

/-- `FaceOffRound.startVote` when the vote phase begins, switching on
`_userOrder.length`.  0 submitters: `setTimeout(cb.bind(this, {}, null), …)`,
i.e. `cb({}, null)` — the error slot gets `{}`, the points slot gets `null`
and `fastest` is left `undefined`.  1 submitter: `_showSingleResult` calls
`cb(null, {userId: numLetters}, userId)`.  2 submitters run the full
`_runVote` (not an immediate callback, `none` here). -/
def startVoteImmediate (userOrder : List Nat) (numLetters : Int) : Option FoCbArgs :=
  match userOrder with
  | [] => some { err := some (), points := none, fastest := .undef }
  | [u] => some { err := none, points := some [(u, numLetters)], fastest := .uid u }
  | _ => none

/-! ### FaceOff final resolution (src FaceOff.js) -/

/-- `Object.keys(map).sort((a,b) => map[b] - map[a])` for the two-player maps
`_scores` and `_fastest`: `Object.keys` lists the two integer-like keys in
ascending numeric order, and the two-element comparator sort swaps them
exactly when the second key's value is strictly greater. -/
def sortPairDesc (p q : Nat) (v : Nat → Int) : Nat × Nat :=
  if v q > v p then (q, p) else (p, q)

/-- `FaceOff._getFastestPlayer()`: sorts the keys of `_fastest` descending by
count, then returns `null` if `fastOrder[0] == fastOrder[1]` — NOTE: this
compares the two KEYS, not their counts. -/
def getFastestPlayer (p q : Nat) (fast : Nat → Int) : Option Nat :=
  let fastOrder := sortPairDesc p q fast
  if fastOrder.1 = fastOrder.2 then none else some fastOrder.1

/-- The winner reported by `FaceOff._announceWinner` over players `p < q`
(the ascending key order of `_scores`): the higher cumulative score wins
outright; on a score tie the result of `_getFastestPlayer` is reported, with
its `null` mapped to the unbreakable-tie outcome. -/
def announceWinner (p q : Nat) (score fast : Nat → Int) : Option Nat :=
  let players := sortPairDesc p q score
  if score players.1 ≠ score players.2 then some players.1
  else getFastestPlayer p q fast

/-! ### AcroGame (src AcroGame.js) -/

/-- The fields of `AcroGame` state the claims touch: the `_running`/`_ended`
flags, `_userIds` (name → numeric id), `_userNames` (id-indexed array) and
`_scores`. -/
structure AcroGameState where
  running : Bool
  ended : Bool
  userIds : List (String × Nat)
  userNames : List String
  scores : List (Nat × Int)
deriving DecidableEq

/-- `AcroGame.stop()`: returns the new state, the boolean result, and whether
the `'end'` event was emitted. -/
def gameStop (st : AcroGameState) : AcroGameState × Bool × Bool :=
  if st.ended = false then ({ st with ended := true }, true, true)
  else (st, false, false)

/-- `AcroGame._sayPublic(message)`: `some message` when delivered to the raw
transport, `none` when suppressed. -/
def gameSayPublic (st : AcroGameState) (message : String) : Option String :=
  if st.ended = false then some message else none

/-- `AcroGame._sayPrivate(userId, message)`: delivery also requires
`this._userNames[userId]` to be truthy (a nonempty name). -/
def gameSayPrivate (st : AcroGameState) (userId : Nat) (message : String) :
    Option (String × String) :=
  match st.userNames.get? userId with
  | some name => if st.ended = false ∧ name ≠ "" then some (name, message) else none
  | none => none

/-- `AcroGame.userInput(user, input)`: an unseen user is registered
unconditionally (no `_ended` check!); returns the state and the numeric id
handed to `_handleInput`. -/
def gameUserInput (st : AcroGameState) (user : String) : AcroGameState × Nat :=
  match alookup st.userIds user with
  | some id => (st, id)
  | none =>
      ({ st with
          userIds := aset st.userIds user st.userNames.length,
          userNames := st.userNames ++ [user] },
        st.userNames.length)

/-- `AcroGame.changeUser(oldUser, newUser)`.  When `newUser = oldUser` the
`delete` removes the just-copied binding, so the lookup feeding the
name-table write yields `undefined`; the JS write
`this._userNames[undefined] = …` creates a non-index property on the array,
which no array read ever observes, so the name table is modelled unchanged. -/
def changeUser (st : AcroGameState) (oldUser newUser : String) : AcroGameState :=
  match alookup st.userIds oldUser with
  | none => st
  | some id =>
      { st with
        userIds := adel (aset st.userIds newUser id) oldUser,
        userNames :=
          match alookup (adel (aset st.userIds newUser id) oldUser) newUser with
          | some i => st.userNames.set i newUser
          | none => st.userNames }

/-- The `tie` array built by `_getResults`: the longest prefix of `voteOrder`
whose vote counts equal the winner's. -/
def tieListOf (st : RoundState) : List Nat :=
  match (voteOrder st).head? with
  | none => []
  | some w => (voteOrder st).takeWhile
      (fun u => decide (voteCount st.votes u = voteCount st.votes w))

/-! ### Claim statements and fixtures -/

/-- Modelled from the spec: "the acronym is the concatenation of the first
character of each whitespace-separated token" of the normalized text.  An
empty normalized text has no tokens, so the spec acronym is empty — unlike
`jsAcro`, which appends the string `"undefined"` for the empty token JS
`split` produces.  This definition exists only to be compared against
`jsAcro`. -/
def specAcro (s : String) : String :=
  ⟨(splitSp (normalizeText s)).filterMap List.head?⟩

/-- The maximum received-vote count (0 when no votes were cast). -/
def maxVoteCount (st : RoundState) : Nat :=
  ((tallyKeys st.votes).map (voteCount st.votes)).foldr max 0

/-- A round at the start of its voting phase: `_votes` is empty (the
constructor initialises it and nothing clears it), the phase flag is
`PHASE_VOTE`. -/
def mkVoteState (phrases : List (Nat × String)) (times : Nat → Nat)
    (order : List Nat) : RoundState :=
  { acro := "", phase := .voteOpen, phrases := phrases, submitTimes := times,
    userOrder := order, votes := [] }

/-- Feeding a sequence of `(userId, input)` pairs through `submitVote`. -/
def runVotes (st : RoundState) (inputs : List (Nat × String)) : RoundState :=
  inputs.foldl (fun s p => (submitVote s p.1 p.2).1) st

/-- What claim C4, amended to the durations the code handles as described
(`secs ≥ 8`), asserts of the countdown schedule: strictly decreasing
emissions, nonnegative scheduled delays, total time exactly `secs`, and the
concrete emission order. -/
def CountdownSpec (secs : Nat) : Prop :=
  List.Chain' (· > ·) (countdownEmissions secs) ∧
  (∀ d ∈ countdownDelays secs, 0 ≤ d) ∧
  0 ≤ (countdownSchedule secs).2 ∧
  (countdownDelays secs).sum + (countdownSchedule secs).2 = (secs : Int) ∧
  countdownEmissions secs =
    (if secs / 2 > 15 then [secs / 2, 10, 3, 2, 1] else [secs / 2, 3, 2, 1])

/-- What claim C5 asserts of `submitVote` in the voting phase: the input is
accepted exactly when the parsed 1-based index lands in `_userOrder` and does
not point at the voter; failures signal `invalid`/`self` and change nothing;
an accepted vote stores/overwrites the voter's single entry, leaves every
other voter's entry and all other fields alone, and the `first` flag is true
exactly when the voter had no stored vote. -/
def VoteSubmitSpec (st : RoundState) (userId : Nat) (s : String) : Prop :=
  let pr := submitVote st userId s
  (jsParseInt s = none → pr.1 = st ∧ pr.2 = some (.voteRejected userId "invalid")) ∧
  ∀ n : Int, jsParseInt s = some n →
    (¬ (0 ≤ n - 1 ∧ n - 1 < (st.userOrder.length : Int)) →
        pr.1 = st ∧ pr.2 = some (.voteRejected userId "invalid")) ∧
    ((0 ≤ n - 1 ∧ n - 1 < (st.userOrder.length : Int)) →
      (st.userOrder.getD (n - 1).toNat 0 = userId →
          pr.1 = st ∧ pr.2 = some (.voteRejected userId "self")) ∧
      (st.userOrder.getD (n - 1).toNat 0 ≠ userId →
          pr.2 = some (.voteAccepted userId (!ahasKey st.votes userId)) ∧
          alookup pr.1.votes userId = some (st.userOrder.getD (n - 1).toNat 0) ∧
          (∀ v, v ≠ userId → alookup pr.1.votes v = alookup st.votes v) ∧
          ((st.votes.map Prod.fst).Nodup → (pr.1.votes.map Prod.fst).Nodup) ∧
          ((!ahasKey st.votes userId) = true ↔ alookup st.votes userId = none) ∧
          pr.1.phrases = st.phrases ∧ pr.1.userOrder = st.userOrder ∧
          pr.1.acro = st.acro ∧ pr.1.phase = st.phase ∧
          pr.1.submitTimes = st.submitTimes))

/-- What claim C6 (amended) asserts of `submitPhrase` in the submission
phase: acceptance exactly when the computed acronym matches, acceptance
stores the once-trimmed phrase and timestamp and touches nothing else,
rejection carries the computed acronym and changes nothing — and on every
input whose normalization is nonempty the computed acronym is the
spec-described first-character concatenation. -/
def PhraseSubmitSpec (st : RoundState) (userId : Nat) (phrase : String) (now : Nat) : Prop :=
  let pr := submitPhrase st userId phrase now
  let a := jsAcro phrase
  (a = st.acro →
      pr.2 = some (.phraseAccepted userId (!ahasKey st.phrases userId)) ∧
      alookup pr.1.phrases userId = some (trimOneStr phrase) ∧
      (∀ v, v ≠ userId → alookup pr.1.phrases v = alookup st.phrases v) ∧
      ((st.phrases.map Prod.fst).Nodup → (pr.1.phrases.map Prod.fst).Nodup) ∧
      pr.1.submitTimes userId = now ∧
      (∀ v, v ≠ userId → pr.1.submitTimes v = st.submitTimes v) ∧
      pr.1.votes = st.votes ∧ pr.1.userOrder = st.userOrder ∧ pr.1.acro = st.acro) ∧
  (a ≠ st.acro → pr.1 = st ∧ pr.2 = some (.phraseRejected userId a)) ∧
  (normalizeText phrase ≠ [] → a = specAcro phrase)

/-- What claim C3 asserts of `_getPoints`: forfeiture is applied last and
dominates — every nonVoter holding a nonzero accumulated entry ends at
exactly 0, a nonVoter absent from the accumulated map stays absent, and in
particular a nonVoter who is `fastestWithVote` ends at 0. -/
def ForfeitSpec (opts : PointOpts) (st : RoundState) : Prop :=
  ∀ u ∈ (getResults st).nonVoters,
    (∀ v : Int,
        alookup (pointsBeforeForfeit opts (getResults st)) (some u) = some (some v) →
        v ≠ 0 → alookup (getPoints opts (getResults st)) (some u) = some (some 0)) ∧
    (alookup (pointsBeforeForfeit opts (getResults st)) (some u) = none →
        alookup (getPoints opts (getResults st)) (some u) = none) ∧
    ((getResults st).fastestWithVote = some u →
        alookup (getPoints opts (getResults st)) (some u) = some (some 0))

/-- What claim C9 (amended) asserts of a stopped game: later stops are no-ops
returning false and emitting nothing, no public or private message is
delivered — but `userInput` is NOT gated: an unseen user is still registered
in `_userIds`/`_userNames`, and a known user's input is still forwarded. -/
def StoppedGameSpec (st : AcroGameState) : Prop :=
  st.ended = true ∧
  gameStop st = (st, false, false) ∧
  (∀ m, gameSayPublic st m = none) ∧
  (∀ u m, gameSayPrivate st u m = none) ∧
  (∀ user, alookup st.userIds user = none →
      (gameUserInput st user).1.userIds = aset st.userIds user st.userNames.length ∧
      (gameUserInput st user).1.userNames = st.userNames ++ [user]) ∧
  (∀ user id, alookup st.userIds user = some id → (gameUserInput st user).1 = st)

/-- What claim C10 (amended) asserts of `changeUser` for a registered
`oldUser` and a DIFFERENT `newUser`: the numeric id is re-bound, the name
table is updated at that id, and everything else is untouched. -/
def ChangeUserSpec (st : AcroGameState) (oldU newU : String) (id : Nat) : Prop :=
  let st' := changeUser st oldU newU
  alookup st'.userIds newU = some id ∧
  alookup st'.userIds oldU = none ∧
  (∀ u, u ≠ oldU → u ≠ newU → alookup st'.userIds u = alookup st.userIds u) ∧
  st'.userNames = st.userNames.set id newU ∧
  st'.scores = st.scores ∧ st'.running = st.running ∧ st'.ended = st.ended

/-! #### Concrete fixtures used by witnesses, counterexamples and the
sanity checks against the repository's own test suite -/

/-- The fixture of the repository's `round_test` (`_phrases` for users 0..4,
`_submitTimes` `[2,1,3,4,5]`, votes `{0:3, 1:3, 2:4, 3:4}`). -/
def fixtureRound : RoundState :=
  { acro := "X", phase := .stopped,
    phrases := [(0, "A phrase"), (1, "B phrase"), (2, "C phrase"), (3, "D phrase"), (4, "E phrase")],
    submitTimes := fun u => [2, 1, 3, 4, 5].getD u 0,
    userOrder := [], votes := [(0, 3), (1, 3), (2, 4), (3, 4)] }

/-- An empty round (the "no one played" test). -/
def emptyRound : RoundState :=
  { acro := "X", phase := .stopped, phrases := [], submitTimes := fun _ => 0,
    userOrder := [], votes := [] }

/-- Voting-phase fixture: submitters 5 and 7, vote order `[5, 7]`. -/
def voteFixture : RoundState :=
  mkVoteState [(5, "A"), (7, "B")] (fun _ => 0) [5, 7]

/-- Submission-phase fixture with acronym `EMC`. -/
def acroFixture : RoundState :=
  { acro := "EMC", phase := .acroOpen, phrases := [], submitTimes := fun _ => 0,
    userOrder := [], votes := [] }

/-- Point fixture: submitters 0,1,2 with times 1,2,3; users 0 and 2 voted for
user 1, who did not vote — the fastest-with-vote nonVoter of claim C3. -/
def pointsFixture : RoundState :=
  { acro := "AB", phase := .stopped,
    phrases := [(0, "P0"), (1, "P1"), (2, "P2")],
    submitTimes := fun u => u + 1, userOrder := [0, 1, 2],
    votes := [(0, 1), (2, 1)] }

/-- Default bonus constants: 2 points fastest-with-vote, 2 letters, 1 point
per winning vote. -/
def pointsFixtureOpts : PointOpts :=
  { pointsFastestWithVote := 2, numLetters := 2, pointsVoteForWinner := 1 }

/-- A running game with one registered user. -/
def gameFixture : AcroGameState :=
  { running := true, ended := false, userIds := [("A", 0)], userNames := ["A"],
    scores := [(0, 3)] }

/-- A stopped game with no registered users. -/
def stoppedGameFixture : AcroGameState :=
  { running := true, ended := true, userIds := [], userNames := [], scores := [] }

/-- Two registered users for the `changeUser` claims. -/
def renameFixture : AcroGameState :=
  { running := true, ended := false, userIds := [("A", 0), ("B", 1)],
    userNames := ["A", "B"], scores := [(0, 5)] }

/-- One registered user, for the `changeUser(x, x)` counterexample. -/
def renameSelfFixture : AcroGameState :=
  { running := true, ended := false, userIds := [("A", 0)], userNames := ["A"],
    scores := [] }

/-! ## Theorems -/

/-- Sanity check: the embedding reproduces the repository's own `Round` test
("should accurately calculate results") exactly. -/
theorem getResults_matches_repo_test :
    getResults fixtureRound =
      { winner := some 3, tie := some [3, 4], fastest := some 1,
        fastestWithVote := some 3, topVoters := [0, 1], nonVoters := [4],
        acroVotes := [(3, 2), (4, 2)] } := by decide

/-- Sanity check: the "no one played" test — `winner` is null. -/
theorem getResults_matches_repo_empty_test :
    (getResults emptyRound).winner = none := by decide

/-- Claim C1 (code bug): `_announceWinner` does pick the higher cumulative
score when scores differ, and the higher `_fastest` counter on a score tie,
but on a 5–5 score with 1–1 fastest counters it declares player 0 the winner
instead of the claimed null unbreakable tie: `_getFastestPlayer` compares
`fastOrder[0] == fastOrder[1]` — the two distinct KEYS, never equal — instead
of their counts, contradicting its own doc comment ("null if both players had
an equal number of fast answers"). -/
theorem faceOff_final_resolution_code_bug :
    announceWinner 0 1 (fun u => if u = 0 then 9 else 5) (fun _ => 0) = some 0 ∧
    announceWinner 0 1 (fun u => if u = 0 then 5 else 9) (fun _ => 0) = some 1 ∧
    announceWinner 0 1 (fun _ => 5) (fun u => if u = 0 then 2 else 1) = some 0 ∧
    announceWinner 0 1 (fun _ => 5) (fun u => if u = 0 then 1 else 2) = some 1 ∧
    announceWinner 0 1 (fun _ => 5) (fun _ => 1) = some 0 ∧
    getFastestPlayer 0 1 (fun _ => 1) ≠ none := by decide

/-- Claim C7 (code bug): with 0 submitters `FaceOffRound.startVote` invokes
its callback as `cb({}, null)` — a truthy `{}` in the error slot, `null` as
the points map, and `fastest` left `undefined` — not the documented
`(null, {}, null)`; the coordinator's `fastest !== null` test then treats the
`undefined` as a fastest player.  The 1-submitter path does award exactly the
acronym-length bonus and reports that submitter as fastest. -/
theorem faceOffRound_startVote_small_cases :
    startVoteImmediate [] 3 = some { err := some (), points := none, fastest := .undef } ∧
    JsVal.undef ≠ JsVal.null ∧
    jsValNotNull .undef = true ∧
    startVoteImmediate [7] 3 = some { err := none, points := some [(7, 3)], fastest := .uid 7 } ∧
    startVoteImmediate [7, 9] 3 = none := by decide

/-- The countdown schedule in closed form: the halfway milestone is emitted
first (after `secs - secs/2`), then 10 when present, then 3, 2, 1, with a
final one-second wait. -/
theorem countdownSchedule_eq (secs : Nat) :
    countdownSchedule secs =
      (if secs / 2 > 15 then
        ([((secs : Int) - ((secs / 2 : Nat) : Int), secs / 2),
          (((secs / 2 : Nat) : Int) - 10, 10), (7, 3), (1, 2), (1, 1)], 1)
       else
        ([((secs : Int) - ((secs / 2 : Nat) : Int), secs / 2),
          (((secs / 2 : Nat) : Int) - 3, 3), (1, 2), (1, 1)], 1)) := by
  unfold countdownSchedule milestoneList
  by_cases h15 : secs / 2 > 15 <;> simp [h15, emitFromEnd]

/-- Claim C4 counterexample: at `secs = 4` the countdown emits `2, 3, 2, 1` —
not strictly decreasing — and schedules a negative delay; at `secs = 6` the
milestone 3 is emitted twice (the code neither deduplicates nor sorts the
milestone array). -/
theorem countdown_counterexample :
    countdownEmissions 4 = [2, 3, 2, 1] ∧
    ¬ List.Chain' (· > ·) (countdownEmissions 4) ∧
    countdownDelays 4 = [2, -1, 1, 1] ∧
    countdownEmissions 6 = [3, 3, 2, 1] ∧
    ¬ List.Chain' (· > ·) (countdownEmissions 6) := by
  have h4 : countdownEmissions 4 = [2, 3, 2, 1] := by decide
  have h6 : countdownEmissions 6 = [3, 3, 2, 1] := by decide
  refine ⟨h4, ?_, by decide, h6, ?_⟩
  · rw [h4]
    simp [List.chain'_cons]
  · rw [h6]
    simp [List.chain'_cons]

/-- Claim C4 (amended): for every duration of at least 8 seconds (so that
`floor(secs/2) > 3`, as with every configurable round length) the countdown
emits its milestones in strictly decreasing order, every scheduled delay is
nonnegative, and the delays plus the final wait sum to exactly `secs`. -/
theorem countdown_schedule_amended (secs : Nat) (h : 8 ≤ secs) : CountdownSpec secs := by
  have hh : 4 ≤ secs / 2 := by omega
  have hle : secs / 2 ≤ secs := Nat.div_le_self _ _
  unfold CountdownSpec countdownEmissions countdownDelays
  rw [countdownSchedule_eq]
  by_cases h15 : secs / 2 > 15
  · simp only [h15, if_true]
    refine ⟨?_, ?_, by norm_num, ?_, rfl⟩
    · simp only [List.map_cons, List.map_nil]
      rw [List.chain'_cons, List.chain'_cons, List.chain'_cons, List.chain'_cons]
      refine ⟨by omega, by omega, by omega, by omega, List.chain'_singleton _⟩
    · intro d hd
      simp only [List.map_cons, List.map_nil, List.mem_cons, List.not_mem_nil, or_false] at hd
      rcases hd with h' | h' | h' | h' | h' <;> subst h' <;> omega
    · simp only [List.map_cons, List.map_nil, List.sum_cons, List.sum_nil]
      omega
  · simp only [h15, if_false]
    refine ⟨?_, ?_, by norm_num, ?_, rfl⟩
    · simp only [List.map_cons, List.map_nil]
      rw [List.chain'_cons, List.chain'_cons, List.chain'_cons]
      refine ⟨by omega, by omega, by omega, List.chain'_singleton _⟩
    · intro d hd
      simp only [List.map_cons, List.map_nil, List.mem_cons, List.not_mem_nil, or_false] at hd
      rcases hd with h' | h' | h' | h' <;> subst h' <;> omega
    · simp only [List.map_cons, List.map_nil, List.sum_cons, List.sum_nil]
      omega

/-- Witness for `countdown_schedule_amended` at the default vote-round length
of 30 seconds. -/
theorem countdown_schedule_amended_witness : 8 ≤ 30 ∧ CountdownSpec 30 :=
  ⟨by decide, countdown_schedule_amended 30 (by decide)⟩

/-! ### Association-list lemmas -/

theorem alookup_nil {κ α : Type} [DecidableEq κ] (q : κ) :
    alookup ([] : List (κ × α)) q = none := rfl

theorem alookup_cons {κ α : Type} [DecidableEq κ] (e : κ × α) (m : List (κ × α)) (q : κ) :
    alookup (e :: m) q = if e.1 = q then some e.2 else alookup m q := rfl

theorem aset_nil {κ α : Type} [DecidableEq κ] (k : κ) (v : α) :
    aset ([] : List (κ × α)) k v = [(k, v)] := rfl

theorem aset_cons {κ α : Type} [DecidableEq κ] (e : κ × α) (m : List (κ × α)) (k : κ) (v : α) :
    aset (e :: m) k v = if e.1 = k then (k, v) :: m else e :: aset m k v := rfl

theorem ahasKey_cons {κ α : Type} [DecidableEq κ] (e : κ × α) (m : List (κ × α)) (k : κ) :
    ahasKey (e :: m) k = if e.1 = k then true else ahasKey m k := rfl

theorem adel_cons {κ α : Type} [DecidableEq κ] (e : κ × α) (m : List (κ × α)) (k : κ) :
    adel (e :: m) k = if e.1 = k then adel m k else e :: adel m k := by
  by_cases he : e.1 = k <;> simp [adel, List.filter_cons, he]

theorem alookup_aset_self {κ α : Type} [DecidableEq κ] (m : List (κ × α)) (k : κ) (v : α) :
    alookup (aset m k v) k = some v := by
  induction m with
  | nil => simp [aset_nil, alookup_cons]
  | cons e rest ih =>
      by_cases he : e.1 = k
      · simp [aset_cons, alookup_cons, he]
      · simp [aset_cons, alookup_cons, he, ih]

theorem alookup_aset_of_ne {κ α : Type} [DecidableEq κ] (m : List (κ × α)) (k q : κ) (v : α)
    (h : q ≠ k) : alookup (aset m k v) q = alookup m q := by
  have hkq : k ≠ q := fun h' => h h'.symm
  induction m with
  | nil => rw [aset_nil, alookup_cons, if_neg hkq, alookup_nil]
  | cons e rest ih =>
      rw [aset_cons]
      by_cases he : e.1 = k
      · have hq : e.1 ≠ q := fun h' => hkq (he.symm.trans h')
        rw [if_pos he, alookup_cons, alookup_cons, if_neg hkq, if_neg hq]
      · rw [if_neg he, alookup_cons, alookup_cons, ih]

theorem ahasKey_false_iff {κ α : Type} [DecidableEq κ] (m : List (κ × α)) (k : κ) :
    ahasKey m k = false ↔ alookup m k = none := by
  induction m with
  | nil => simp [ahasKey, alookup_nil]
  | cons e rest ih =>
      by_cases he : e.1 = k <;> simp [ahasKey_cons, alookup_cons, he, ih]

theorem ahasKey_iff_mem_keys {κ α : Type} [DecidableEq κ] (m : List (κ × α)) (k : κ) :
    ahasKey m k = true ↔ k ∈ m.map Prod.fst := by
  induction m with
  | nil => simp [ahasKey]
  | cons e rest ih =>
      rw [ahasKey_cons]
      by_cases he : e.1 = k
      · simp [he]
      · have hk : ¬ k = e.1 := fun h' => he h'.symm
        rw [if_neg he, ih]
        simp [List.mem_cons, hk]

theorem aset_map_fst {κ α : Type} [DecidableEq κ] (m : List (κ × α)) (k : κ) (v : α) :
    (aset m k v).map Prod.fst =
      if ahasKey m k then m.map Prod.fst else m.map Prod.fst ++ [k] := by
  induction m with
  | nil => simp [aset_nil, ahasKey]
  | cons e rest ih =>
      by_cases he : e.1 = k
      · simp [aset_cons, ahasKey_cons, he]
      · by_cases hk : ahasKey rest k <;>
          simp [aset_cons, ahasKey_cons, he, hk, ih]

theorem aset_keys_nodup {κ α : Type} [DecidableEq κ] (m : List (κ × α)) (k : κ) (v : α)
    (h : (m.map Prod.fst).Nodup) : ((aset m k v).map Prod.fst).Nodup := by
  rw [aset_map_fst]
  by_cases hk : ahasKey m k
  · simpa [hk] using h
  · have hmem : k ∉ m.map Prod.fst := by
      intro hm
      exact hk ((ahasKey_iff_mem_keys m k).mpr hm)
    have happ : (m.map Prod.fst ++ [k]).Nodup := by
      rw [List.nodup_append]
      exact ⟨h, List.nodup_singleton _, by simpa [List.disjoint_right] using hmem⟩
    simpa [hk] using happ

theorem alookup_adel_self {κ α : Type} [DecidableEq κ] (m : List (κ × α)) (k : κ) :
    alookup (adel m k) k = none := by
  induction m with
  | nil => rfl
  | cons e rest ih =>
      rw [adel_cons]
      by_cases he : e.1 = k
      · rw [if_pos he, ih]
      · rw [if_neg he, alookup_cons, if_neg he, ih]

theorem alookup_adel_of_ne {κ α : Type} [DecidableEq κ] (m : List (κ × α)) (k q : κ)
    (h : q ≠ k) : alookup (adel m k) q = alookup m q := by
  induction m with
  | nil => rfl
  | cons e rest ih =>
      rw [adel_cons]
      by_cases he : e.1 = k
      · have hq : e.1 ≠ q := fun h' => h (he.symm.trans h').symm
        rw [if_pos he, alookup_cons, if_neg hq, ih]
      · rw [if_neg he, alookup_cons, alookup_cons, ih]

/-! ### Claims C9 and C10: AcroGame -/

/-- Claim C9 (amended): after a successful `stop()` the game delivers no
further public or private messages and every later `stop()` returns false and
emits nothing — but `userInput` is not gated by `_ended`: an unseen user is
still registered in the id/name tables (the game state mutates), and a known
user's input is still forwarded to the input handler. -/
theorem acroGame_stop_amended (st : AcroGameState) (h : (gameStop st).2.1 = true) :
    StoppedGameSpec (gameStop st).1 := by
  cases hst : st.ended with
  | true => simp [gameStop, hst] at h
  | false =>
      have hpost : (gameStop st).1 = { st with ended := true } := by
        simp [gameStop, hst]
      rw [hpost]
      unfold StoppedGameSpec
      refine ⟨rfl, ?_, ?_, ?_, ?_, ?_⟩
      · simp [gameStop]
      · intro m
        simp [gameSayPublic]
      · intro u m
        unfold gameSayPrivate
        cases ({ st with ended := true } : AcroGameState).userNames.get? u <;> simp
      · intro user hu
        unfold gameUserInput
        rw [hu]
        exact ⟨rfl, rfl⟩
      · intro user id hu
        unfold gameUserInput
        rw [hu]

/-- Witness for `acroGame_stop_amended`: stopping a running game succeeds and
the stopped state satisfies the amended contract. -/
theorem acroGame_stop_amended_witness :
    (gameStop gameFixture).2.1 = true ∧ StoppedGameSpec (gameStop gameFixture).1 :=
  ⟨by decide, acroGame_stop_amended gameFixture (by decide)⟩

/-- Claim C9 counterexample: on a stopped game, `userInput` from an unseen
user still mutates the game state (registering the user), refuting "no
subsequent userInput call mutates any game state". -/
theorem acroGame_stop_input_counterexample :
    (gameUserInput stoppedGameFixture "alice").1 ≠ stoppedGameFixture ∧
    (gameUserInput stoppedGameFixture "alice").1.userIds = [("alice", 0)] := by decide

/-- Claim C10 (amended): `changeUser` re-binds a DIFFERENT `newUser` to the
registered `oldUser`'s id, updates the name table at that id, and leaves the
scores and every other field unchanged; an unregistered `oldUser` leaves the
state unchanged.  (For `newUser = oldUser` see the counterexample: the
`delete` then removes the freshly copied binding.) -/
theorem acroGame_changeUser_amended (st : AcroGameState) (oldU newU : String) :
    (∀ id, alookup st.userIds oldU = some id → newU ≠ oldU →
        id < st.userNames.length → ChangeUserSpec st oldU newU id) ∧
    (alookup st.userIds oldU = none → changeUser st oldU newU = st) := by
  constructor
  · intro id hid hne _
    have hlook2 : alookup (adel (aset st.userIds newU id) oldU) newU = some id := by
      rw [alookup_adel_of_ne _ _ _ hne, alookup_aset_self]
    have hst' : changeUser st oldU newU =
        { st with userIds := adel (aset st.userIds newU id) oldU,
                  userNames := st.userNames.set id newU } := by
      unfold changeUser
      rw [hid]
      dsimp only
      rw [hlook2]
    unfold ChangeUserSpec
    rw [hst']
    refine ⟨hlook2, alookup_adel_self _ _, ?_, rfl, rfl, rfl, rfl⟩
    intro u huo hun
    rw [alookup_adel_of_ne _ _ _ huo, alookup_aset_of_ne _ _ _ _ hun]
  · intro h
    unfold changeUser
    rw [h]

/-- Witness for `acroGame_changeUser_amended`: renaming registered user "A"
to "C" moves the binding and the name-table slot; renaming unregistered "Z"
changes nothing. -/
theorem acroGame_changeUser_amended_witness :
    ChangeUserSpec renameFixture "A" "C" 0 ∧
    changeUser renameFixture "Z" "C" = renameFixture :=
  ⟨(acroGame_changeUser_amended renameFixture "A" "C").1 0 (by decide) (by decide) (by decide),
   (acroGame_changeUser_amended renameFixture "Z" "C").2 (by decide)⟩

/-- Claim C10 counterexample: `changeUser(x, x)` on a registered `x` deletes
the binding entirely instead of re-binding it, because the `delete` runs
after the copy onto the same key. -/
theorem acroGame_changeUser_self_counterexample :
    alookup (changeUser renameSelfFixture "A" "A").userIds "A" = none ∧
    (changeUser renameSelfFixture "A" "A").userIds = [] := by decide

/-! ### Claim C5: submitVote -/

/-- `submitVote` in the voting phase, written out branch by branch. -/
theorem submitVote_eq (st : RoundState) (userId : Nat) (s : String)
    (h : st.phase = Phase.voteOpen) :
    submitVote st userId s =
      match jsParseInt s with
      | none => (st, some (.voteRejected userId "invalid"))
      | some n =>
          if 0 ≤ n - 1 ∧ n - 1 < (st.userOrder.length : Int) then
            if userId ≠ st.userOrder.getD (n - 1).toNat 0 then
              ({ st with votes := aset st.votes userId (st.userOrder.getD (n - 1).toNat 0) },
                some (.voteAccepted userId (!ahasKey st.votes userId)))
            else (st, some (.voteRejected userId "self"))
          else (st, some (.voteRejected userId "invalid")) := by
  unfold submitVote
  rw [if_pos h]

/-- Claim C5: in the voting phase a vote is accepted exactly when the parsed
1-based index lands inside `_userOrder` and does not point at the voter; an
out-of-range or unparsable input is rejected "invalid", the voter's own entry
is rejected "self", both leaving the state unchanged; an accepted vote
stores/overwrites the voter's single entry, leaves everything else unchanged,
and the `first` flag is true exactly when the voter had no stored vote. -/
theorem round_submitVote_behavior (st : RoundState) (userId : Nat) (s : String)
    (h : st.phase = Phase.voteOpen) : VoteSubmitSpec st userId s := by
  unfold VoteSubmitSpec
  rw [submitVote_eq st userId s h]
  cases hp : jsParseInt s with
  | none =>
      dsimp only
      exact ⟨fun _ => ⟨rfl, rfl⟩, fun n hn => absurd hn (by simp)⟩
  | some n₀ =>
      dsimp only
      refine ⟨fun hc => absurd hc (by simp), ?_⟩
      intro n hn
      have hnn : n₀ = n := by
        have := hn
        injection this
      subst hnn
      by_cases hr : 0 ≤ n₀ - 1 ∧ n₀ - 1 < (st.userOrder.length : Int)
      · rw [if_pos hr]
        refine ⟨fun hc => absurd hr hc, fun _ => ⟨?_, ?_⟩⟩
        · intro hself
          rw [if_neg (fun hcon : userId ≠ st.userOrder.getD (n₀ - 1).toNat 0 =>
            hcon hself.symm)]
          exact ⟨rfl, rfl⟩
        · intro hne
          rw [if_pos (fun hcon : userId = st.userOrder.getD (n₀ - 1).toNat 0 =>
            hne hcon.symm)]
          refine ⟨rfl, ?_, ?_, ?_, ?_, rfl, rfl, rfl, rfl, rfl⟩
          · exact alookup_aset_self _ _ _
          · intro v hv
            exact alookup_aset_of_ne _ _ _ _ hv
          · intro hnd
            exact aset_keys_nodup _ _ _ hnd
          · rw [Bool.not_eq_true']  -- hmm placeholder
            exact ahasKey_false_iff st.votes userId
      · rw [if_neg hr]
        exact ⟨fun _ => ⟨rfl, rfl⟩, fun hc => absurd hc hr⟩

/-- Witness for `round_submitVote_behavior`: user 2 votes "2" in the voting
fixture (vote order `[5, 7]`), which is accepted as a first vote for user 7. -/
theorem round_submitVote_behavior_witness :
    voteFixture.phase = Phase.voteOpen ∧ VoteSubmitSpec voteFixture 2 "2" :=
  ⟨rfl, round_submitVote_behavior voteFixture 2 "2" rfl⟩

/-! ### `getResults` projection lemmas -/

theorem getResults_winner (st : RoundState) :
    (getResults st).winner = (voteOrder st).head? := rfl

theorem getResults_acroVotes (st : RoundState) :
    (getResults st).acroVotes =
      (tallyKeys st.votes).map (fun u => (u, voteCount st.votes u)) := rfl

theorem getResults_nonVoters (st : RoundState) :
    (getResults st).nonVoters = nonVotersOf st := rfl

theorem getResults_fastestWithVote (st : RoundState) :
    (getResults st).fastestWithVote = fastestWithVoteOf st := rfl

theorem getResults_tie (st : RoundState) :
    (getResults st).tie =
      (if (tieListOf st).length > 1 then some (tieListOf st) else none) := rfl

/-! ### Claim C8: the vote tally invariant -/

/-- Every `submitVote` call preserves the one-entry-per-voter shape of
`_votes`. -/
theorem submitVote_keys_nodup (st : RoundState) (u : Nat) (s : String)
    (h : (st.votes.map Prod.fst).Nodup) :
    (((submitVote st u s).1.votes.map Prod.fst)).Nodup := by
  unfold submitVote
  by_cases hph : st.phase = Phase.voteOpen
  · rw [if_pos hph]
    cases jsParseInt s with
    | none => exact h
    | some n =>
        dsimp only
        by_cases hr : 0 ≤ n - 1 ∧ n - 1 < (st.userOrder.length : Int)
        · rw [if_pos hr]
          by_cases hne : u ≠ st.userOrder.getD (n - 1).toNat 0
          · rw [if_pos hne]
            exact aset_keys_nodup _ _ _ h
          · rw [if_neg hne]
            exact h
        · rw [if_neg hr]
          exact h
  · rw [if_neg hph]
    exact h

/-- A whole input trace preserves it. -/
theorem runVotes_keys_nodup (inputs : List (Nat × String)) :
    ∀ st : RoundState, (st.votes.map Prod.fst).Nodup →
      ((runVotes st inputs).votes.map Prod.fst).Nodup := by
  induction inputs with
  | nil => intro st h; exact h
  | cons p rest ih =>
      intro st h
      exact ih _ (submitVote_keys_nodup st p.1 p.2 h)

/-- The values of `acroVotes` sum to the number of stored votes, for any
round state. -/
theorem sum_acroVotes (st : RoundState) :
    ((getResults st).acroVotes.map Prod.snd).sum = st.votes.length := by
  rw [getResults_acroVotes, List.map_map]
  have hcomp : (Prod.snd ∘ fun u => (u, voteCount st.votes u)) = voteCount st.votes := rfl
  rw [hcomp]
  unfold tallyKeys voteCount
  rw [List.sum_map_count_dedup_eq_length]
  unfold targetsOf
  rw [List.length_map]

/-- `acroVotes` has an entry exactly for the identifiers who received at
least one vote. -/
theorem mem_acroVotes_iff (st : RoundState) (u : Nat) :
    (∃ c, (u, c) ∈ (getResults st).acroVotes) ↔ ∃ v, (v, u) ∈ st.votes := by
  rw [getResults_acroVotes]
  constructor
  · rintro ⟨c, hc⟩
    rcases List.mem_map.mp hc with ⟨u', hu', heq⟩
    have hu'u : u' = u := (Prod.mk.injEq _ _ _ _).mp heq |>.1
    have hu : u ∈ tallyKeys st.votes := hu'u ▸ hu'
    have hmem : u ∈ targetsOf st.votes := List.mem_dedup.mp hu
    rcases List.mem_map.mp hmem with ⟨p, hp, hpu⟩
    refine ⟨p.1, ?_⟩
    rw [← hpu, Prod.mk.eta]
    exact hp
  · rintro ⟨v, hv⟩
    have hmem : u ∈ targetsOf st.votes := List.mem_map.mpr ⟨(v, u), hv, rfl⟩
    have hu : u ∈ tallyKeys st.votes := List.mem_dedup.mpr hmem
    exact ⟨voteCount st.votes u, List.mem_map.mpr ⟨u, hu, rfl⟩⟩

/-- Claim C8: over every vote state reachable by `submitVote` calls from the
start of a voting phase, the values of `acroVotes` sum to the number of
voters holding a stored vote (`_votes` has one entry per such voter), and
`acroVotes` has an entry exactly for each identifier who received ≥ 1 vote.
Rejected attempts (self votes, invalid indices) leave `_votes` unchanged, so
they contribute nothing. -/
theorem round_acroVotes_invariant (phrases : List (Nat × String)) (times : Nat → Nat)
    (order : List Nat) (inputs : List (Nat × String)) :
    ((getResults (runVotes (mkVoteState phrases times order) inputs)).acroVotes.map
        Prod.snd).sum
      = (runVotes (mkVoteState phrases times order) inputs).votes.length ∧
    ((runVotes (mkVoteState phrases times order) inputs).votes.map Prod.fst).Nodup ∧
    ∀ u, (∃ c, (u, c) ∈ (getResults
            (runVotes (mkVoteState phrases times order) inputs)).acroVotes) ↔
         ∃ v, (v, u) ∈ (runVotes (mkVoteState phrases times order) inputs).votes :=
  ⟨sum_acroVotes _,
   runVotes_keys_nodup inputs _ (by simp [mkVoteState]),
   fun u => mem_acroVotes_iff _ u⟩

/-! ### Claim C2: winner/tie invariants of `_getResults` -/

theorem voteOrder_perm (st : RoundState) : List.Perm (voteOrder st) (tallyKeys st.votes) :=
  List.perm_insertionSort _ _

theorem voteOrder_sorted (st : RoundState) :
    List.Sorted (rankRel st) (voteOrder st) :=
  List.sorted_insertionSort _ _

theorem rankRel_count_le (st : RoundState) {a b : Nat} (h : rankRel st a b) :
    voteCount st.votes b ≤ voteCount st.votes a := by
  unfold rankRel at h
  omega

/-- For a list whose measure is nonincreasing and bounded by `c`, taking the
prefix of measure `c` is the same as filtering for measure `c`. -/
theorem takeWhile_eq_filter_of_anti (f : Nat → Nat) (c : Nat) :
    ∀ l : List Nat, l.Pairwise (fun a b => f b ≤ f a) → (∀ u ∈ l, f u ≤ c) →
      l.takeWhile (fun u => decide (f u = c)) = l.filter (fun u => decide (f u = c)) := by
  intro l
  induction l with
  | nil => intro _ _; rfl
  | cons x xs ih =>
      intro hpw hle
      have hx : ∀ y ∈ xs, f y ≤ f x := (List.pairwise_cons.mp hpw).1
      by_cases hfx : f x = c
      · rw [List.takeWhile_cons, List.filter_cons]
        simp only [hfx, decide_True, if_true, cond_true]
        rw [ih (List.pairwise_cons.mp hpw).2 (fun u hu => le_trans (hx u hu) (le_of_eq hfx))]
      · have hlt : f x < c := lt_of_le_of_ne (hle x (List.mem_cons_self x xs)) hfx
        have hnone : ∀ u ∈ xs, ¬ (decide (f u = c) = true) := by
          intro u hu
          simp only [decide_eq_true_eq]
          exact fun hc => absurd hc (by have := hx u hu; omega)
        rw [List.takeWhile_cons, List.filter_cons]
        simp only [hfx, decide_False, if_false, cond_false]
        exact (List.filter_eq_nil_iff.mpr hnone).symm

theorem foldr_max_le (l : List Nat) (c : Nat) (h : ∀ x ∈ l, x ≤ c) :
    l.foldr max 0 ≤ c := by
  induction l with
  | nil => simp
  | cons x xs ih =>
      simp only [List.foldr_cons]
      have h1 := h x (List.mem_cons_self x xs)
      have h2 := ih (fun y hy => h y (List.mem_cons_of_mem x hy))
      omega

theorem le_foldr_max (l : List Nat) (x : Nat) (h : x ∈ l) : x ≤ l.foldr max 0 := by
  induction l with
  | nil => cases h
  | cons y ys ih =>
      simp only [List.foldr_cons]
      rcases List.mem_cons.mp h with h' | h'
      · omega
      · have := ih h'
        omega

/-- When `voteOrder` is nonempty its head realises the maximum vote count. -/
theorem maxVoteCount_eq_head (st : RoundState) (w : Nat) (rest : List Nat)
    (hord : voteOrder st = w :: rest) :
    maxVoteCount st = voteCount st.votes w := by
  have hperm : List.Perm (tallyKeys st.votes) (w :: rest) := by
    have := (voteOrder_perm st).symm
    rwa [hord] at this
  have hpw : (w :: rest).Pairwise (fun a b => voteCount st.votes b ≤ voteCount st.votes a) := by
    have hs := voteOrder_sorted st
    rw [hord] at hs
    exact hs.imp (fun h => rankRel_count_le st h)
  have hmax : ∀ u ∈ w :: rest, voteCount st.votes u ≤ voteCount st.votes w := by
    intro u hu
    rcases List.mem_cons.mp hu with h' | h'
    · rw [h']
    · exact (List.pairwise_cons.mp hpw).1 u h'
  unfold maxVoteCount
  refine le_antisymm ?_ ?_
  · refine foldr_max_le _ _ ?_
    intro x hx
    rcases List.mem_map.mp hx with ⟨u, hu, hux⟩
    rw [← hux]
    exact hmax u (hperm.mem_iff.mp hu)
  · refine le_foldr_max _ _ ?_
    exact List.mem_map.mpr ⟨w, hperm.mem_iff.mpr (List.mem_cons_self w rest), rfl⟩

/-- Claim C2: for every state of submissions, timestamps and votes, the
`_getResults` output satisfies: `winner` is null iff no votes are stored;
`tie` is non-null iff at least two vote-receiving identifiers share the
maximum received-vote count; and whenever `tie` is non-null the winner is a
member of it. -/
theorem round_getResults_invariants (st : RoundState) :
    ((getResults st).winner = none ↔ st.votes = []) ∧
    ((getResults st).tie ≠ none ↔
      2 ≤ ((tallyKeys st.votes).filter
            (fun u => decide (voteCount st.votes u = maxVoteCount st))).length) ∧
    (∀ t, (getResults st).tie = some t →
      ∃ w, (getResults st).winner = some w ∧ w ∈ t) := by
  refine ⟨?_, ?_, ?_⟩
  · rw [getResults_winner, List.head?_eq_none_iff]
    constructor
    · intro hord
      have hlen : (tallyKeys st.votes).length = 0 := by
        have hper := (voteOrder_perm st).length_eq
        rw [hord] at hper
        simpa using hper.symm
      have htk : tallyKeys st.votes = [] := List.length_eq_zero.mp hlen
      have : targetsOf st.votes = [] := (List.dedup_eq_nil _).mp htk
      unfold targetsOf at this
      exact List.map_eq_nil_iff.mp this
    · intro hv
      have : tallyKeys st.votes = [] := by
        unfold tallyKeys targetsOf
        rw [hv]
        rfl
      have hlen : (voteOrder st).length = 0 := by
        have := (voteOrder_perm st).length_eq
        rw [this]
        simpa using congrArg List.length ‹tallyKeys st.votes = []›
      exact List.length_eq_zero.mp hlen
  · rw [getResults_tie]
    cases hord : voteOrder st with
    | nil =>
        have htk : tallyKeys st.votes = [] := by
          have hlen : (tallyKeys st.votes).length = 0 := by
            have hper := (voteOrder_perm st).length_eq
            rw [hord] at hper
            simpa using hper.symm
          exact List.length_eq_zero.mp hlen
        have htl : tieListOf st = [] := by
          unfold tieListOf
          rw [hord]
          rfl
        rw [htl, htk]
        simp
    | cons w rest =>
        have hperm : List.Perm (tallyKeys st.votes) (w :: rest) := by
          have := (voteOrder_perm st).symm
          rwa [hord] at this
        have hpw : (w :: rest).Pairwise
            (fun a b => voteCount st.votes b ≤ voteCount st.votes a) := by
          have hs := voteOrder_sorted st
          rw [hord] at hs
          exact hs.imp (fun h => rankRel_count_le st h)
        have hmax : ∀ u ∈ w :: rest, voteCount st.votes u ≤ voteCount st.votes w := by
          intro u hu
          rcases List.mem_cons.mp hu with h' | h'
          · rw [h']
          · exact (List.pairwise_cons.mp hpw).1 u h'
        have htl : tieListOf st = (w :: rest).takeWhile
            (fun u => decide (voteCount st.votes u = voteCount st.votes w)) := by
          unfold tieListOf
          rw [hord]
          rfl
        have htw : (w :: rest).takeWhile
            (fun u => decide (voteCount st.votes u = voteCount st.votes w)) =
              (w :: rest).filter
            (fun u => decide (voteCount st.votes u = voteCount st.votes w)) :=
          takeWhile_eq_filter_of_anti _ _ _ hpw hmax
        have hflen : ((w :: rest).filter
            (fun u => decide (voteCount st.votes u = voteCount st.votes w))).length =
              ((tallyKeys st.votes).filter
            (fun u => decide (voteCount st.votes u = voteCount st.votes w))).length :=
          (hperm.filter _).length_eq.symm
        rw [maxVoteCount_eq_head st w rest hord, htl, htw, hflen]
        constructor
        · intro hne
          by_contra hlt
          rw [if_neg (by omega :
            ¬ ((tallyKeys st.votes).filter
              (fun u => decide (voteCount st.votes u = voteCount st.votes w))).length > 1)]
            at hne
          exact hne rfl
        · intro hge
          rw [if_pos (by omega :
            ((tallyKeys st.votes).filter
              (fun u => decide (voteCount st.votes u = voteCount st.votes w))).length > 1)]
          simp
  · intro t ht
    rw [getResults_tie] at ht
    split_ifs at ht with hlen
    · have htt : t = tieListOf st := by
        injection ht with h'
        exact h'.symm
      cases hord : voteOrder st with
      | nil =>
          exfalso
          have htl : tieListOf st = [] := by
            unfold tieListOf
            rw [hord]
            rfl
          rw [htl] at hlen
          simp at hlen
      | cons w rest =>
          refine ⟨w, ?_, ?_⟩
          · rw [getResults_winner, hord]
            rfl
          · have htl : tieListOf st = (w :: rest).takeWhile
                (fun u => decide (voteCount st.votes u = voteCount st.votes w)) := by
              unfold tieListOf
              rw [hord]
              rfl
            rw [htt, htl, List.takeWhile_cons]
            simp only [decide_True, if_true]
            exact List.mem_cons_self w _

/-! ### Claim C3: forfeiture dominates in `_getPoints` -/

/-- A forfeiture step never touches another user's entry. -/
theorem forfeitStep_other (m : List (Option Nat × Option Int)) (x u : Nat) (hne : u ≠ x) :
    alookup (forfeitStep m x) (some u) = alookup m (some u) := by
  unfold forfeitStep
  cases halo : alookup m (some x) with
  | none => rfl
  | some v =>
      cases v with
      | none => rfl
      | some vv =>
          dsimp only
          by_cases hvv : vv ≠ 0
          · rw [if_pos hvv]
            exact alookup_aset_of_ne _ _ _ _ (fun h => hne (Option.some.inj h))
          · rw [if_neg hvv]

/-- The forfeiture loop never touches users outside `nvs`. -/
theorem forfeitNonVoters_untouched (nvs : List Nat) :
    ∀ (m : List (Option Nat × Option Int)) (u : Nat), u ∉ nvs →
      alookup (forfeitNonVoters nvs m) (some u) = alookup m (some u) := by
  induction nvs with
  | nil => intro m u _; rfl
  | cons x rest ih =>
      intro m u hu
      have hne : u ≠ x := fun h => hu (h ▸ List.mem_cons_self x rest)
      have hrest : u ∉ rest := fun h => hu (List.mem_cons_of_mem x h)
      show alookup (forfeitNonVoters rest (forfeitStep m x)) (some u) = _
      rw [ih _ u hrest, forfeitStep_other m x u hne]

/-- The forfeiture loop sends a listed user's integer entry to exactly 0 (a
zero entry is already 0 and is skipped), and leaves an absent entry absent. -/
theorem forfeitNonVoters_at_mem (nvs : List Nat) :
    ∀ (m : List (Option Nat × Option Int)) (u : Nat), u ∈ nvs → nvs.Nodup →
      (∀ v : Int, alookup m (some u) = some (some v) →
        alookup (forfeitNonVoters nvs m) (some u) = some (some 0)) ∧
      (alookup m (some u) = none →
        alookup (forfeitNonVoters nvs m) (some u) = none) := by
  induction nvs with
  | nil => intro m u hu _; cases hu
  | cons x rest ih =>
      intro m u hu hnd
      have hxrest : x ∉ rest := (List.nodup_cons.mp hnd).1
      have hndr : rest.Nodup := (List.nodup_cons.mp hnd).2
      rcases List.mem_cons.mp hu with hux | hur
      · subst hux
        have hurest : u ∉ rest := hxrest
        constructor
        · intro v hv
          show alookup (forfeitNonVoters rest (forfeitStep m u)) (some u) = _
          rw [forfeitNonVoters_untouched rest _ u hurest]
          unfold forfeitStep
          rw [hv]
          dsimp only
          by_cases hvz : v ≠ 0
          · rw [if_pos hvz]
            exact alookup_aset_self _ _ _
          · rw [if_neg hvz]
            push_neg at hvz
            rw [hv, hvz]
        · intro hv
          show alookup (forfeitNonVoters rest (forfeitStep m u)) (some u) = _
          rw [forfeitNonVoters_untouched rest _ u hurest]
          unfold forfeitStep
          rw [hv]
          exact hv
      · have hne : u ≠ x := fun h => hxrest (h ▸ hur)
        have hstep := forfeitStep_other m x u hne
        constructor
        · intro v hv
          show alookup (forfeitNonVoters rest (forfeitStep m x)) (some u) = _
          exact (ih _ u hur hndr).1 v (hstep.trans hv)
        · intro hv
          show alookup (forfeitNonVoters rest (forfeitStep m x)) (some u) = _
          exact (ih _ u hur hndr).2 (hstep.trans hv)

/-- `points[k] += x` keeps an integer entry an integer entry. -/
theorem addToEntry_int_preserved (m : List (Option Nat × Option Int)) (k q : Option Nat)
    (x : Int) (h : ∃ v : Int, alookup m q = some (some v)) :
    ∃ v' : Int, alookup (addToEntry m k x) q = some (some v') := by
  induction m with
  | nil =>
      rcases h with ⟨v, hv⟩
      cases hv
  | cons e rest ih =>
      rcases h with ⟨v, hv⟩
      rw [alookup_cons] at hv
      by_cases he : e.1 = k
      · unfold addToEntry
        rw [if_pos he]
        by_cases hkq : k = q
        · rw [alookup_cons, if_pos hkq]
          rw [if_pos (he.trans hkq)] at hv
          refine ⟨v + x, ?_⟩
          have : e.2 = some v := Option.some.inj hv
          rw [this]
          rfl
        · rw [alookup_cons, if_neg hkq]
          rw [if_neg (fun h' => hkq (he ▸ h'))] at hv
          exact ⟨v, hv⟩
      · unfold addToEntry
        rw [if_neg he, alookup_cons]
        by_cases hq : e.1 = q
        · rw [if_pos hq]
          rw [if_pos hq] at hv
          exact ⟨v, hv⟩
        · rw [if_neg hq]
          rw [if_neg hq] at hv
          exact ih ⟨v, hv⟩

/-- The top-voter bonus loop keeps an integer entry an integer entry. -/
theorem voterBonus_int_preserved (pv : Int) (tv : List Nat) :
    ∀ (m : List (Option Nat × Option Int)) (q : Option Nat),
      (∃ v : Int, alookup m q = some (some v)) →
      ∃ v' : Int, alookup (tv.foldl (voterBonusStep pv) m) q = some (some v') := by
  induction tv with
  | nil => intro m q h; exact h
  | cons t rest ih =>
      intro m q h
      rw [List.foldl_cons]
      apply ih
      unfold voterBonusStep
      by_cases hq : q = some t
      · subst hq
        exact ⟨_, alookup_aset_self _ _ _⟩
      · rw [alookup_aset_of_ne _ _ _ _ hq]
        exact h

/-- Looking up a key present in a `(k, f k)` table. -/
theorem alookup_pairs_of_mem (f : Nat → Nat) (l : List Nat) (u : Nat) (hu : u ∈ l) :
    alookup (l.map (fun k => (k, f k))) u = some (f u) := by
  induction l with
  | nil => cases hu
  | cons k rest ih =>
      rw [List.map_cons, alookup_cons]
      by_cases hk : k = u
      · subst hk
        rw [if_pos rfl]
      · rw [if_neg hk]
        exact ih (List.mem_cons.mp hu |>.resolve_left (fun h => hk h.symm))

/-- Looking up a user in the seeded points copy of `acroVotes`. -/
theorem alookup_basePoints (res : RoundResults) (u : Nat) :
    alookup (basePoints res) (some u) =
      (alookup res.acroVotes u).map (fun c => some (c : Int)) := by
  unfold basePoints
  induction res.acroVotes with
  | nil => rfl
  | cons e rest ih =>
      rw [List.map_cons, alookup_cons, alookup_cons]
      by_cases he : e.1 = u
      · rw [if_pos he, if_pos (by rw [he] : some e.1 = some u)]
        rfl
      · rw [if_neg he, if_neg (fun h' : some e.1 = some u => he (Option.some.inj h')), ih]

/-- A reported `fastestWithVote` always received at least one vote. -/
theorem fastestWithVoteOf_pos (st : RoundState) (u : Nat)
    (h : fastestWithVoteOf st = some u) : 0 < voteCount st.votes u := by
  unfold fastestWithVoteOf at h
  have haux : ∀ (l : List Nat) (acc : Option Nat),
      (∀ f, acc = some f → 0 < voteCount st.votes f) →
      l.foldl (fwvStep st) acc = some u → 0 < voteCount st.votes u := by
    intro l
    induction l with
    | nil =>
        intro acc hacc hfold
        exact hacc u hfold
    | cons x rest ih =>
        intro acc hacc hfold
        rw [List.foldl_cons] at hfold
        refine ih _ ?_ hfold
        intro f hf
        unfold fwvStep at hf
        by_cases hx : 0 < voteCount st.votes x
        · rw [if_pos hx] at hf
          cases hacc' : acc with
          | none =>
              rw [hacc'] at hf
              dsimp only at hf
              have : x = f := Option.some.inj hf
              exact this ▸ hx
          | some g =>
              rw [hacc'] at hf
              dsimp only at hf
              by_cases ht : st.submitTimes x < st.submitTimes g
              · rw [if_pos ht] at hf
                have : x = f := Option.some.inj hf
                exact this ▸ hx
              · rw [if_neg ht] at hf
                have : g = f := Option.some.inj hf
                exact this ▸ hacc g hacc'
        · rw [if_neg hx] at hf
          exact hacc f hf
  exact haux _ none (fun f hf => by cases hf) h

/-- Claim C3: `_getPoints` applies forfeiture last and forfeiture dominates
every bonus — each nonVoter with a nonzero accumulated entry ends at exactly
0 (in particular a nonVoter who is also `fastestWithVote`), while a nonVoter
with no accumulated entry stays absent from the output. -/
theorem normalRound_forfeiture_dominates (opts : PointOpts) (st : RoundState) (w : Nat)
    (hnd : (st.phrases.map Prod.fst).Nodup) (_hw : (getResults st).winner = some w) :
    ForfeitSpec opts st := by
  intro u hu
  have hnv : u ∈ nonVotersOf st := hu
  have hnvnd : (nonVotersOf st).Nodup := List.Nodup.filter _ hnd
  have hforf := forfeitNonVoters_at_mem (nonVotersOf st)
    (pointsBeforeForfeit opts (getResults st)) u hnv hnvnd
  refine ⟨?_, ?_, ?_⟩
  · intro v hv _
    exact hforf.1 v hv
  · intro hv
    exact hforf.2 hv
  · intro hfwv
    have hpos : 0 < voteCount st.votes u :=
      fastestWithVoteOf_pos st u ((getResults_fastestWithVote st) ▸ hfwv)
    have hmem : u ∈ tallyKeys st.votes := by
      unfold voteCount at hpos
      exact List.mem_dedup.mpr (List.count_pos_iff.mp hpos)
    have hbase : alookup (basePoints (getResults st)) (some u)
        = some (some (voteCount st.votes u : Int)) := by
      rw [alookup_basePoints, getResults_acroVotes,
        alookup_pairs_of_mem (voteCount st.votes) _ u hmem]
      rfl
    have hmid : ∃ v' : Int,
        alookup (pointsBeforeForfeit opts (getResults st)) (some u) = some (some v') := by
      unfold pointsBeforeForfeit
      apply voterBonus_int_preserved
      apply addToEntry_int_preserved
      apply addToEntry_int_preserved
      exact ⟨_, hbase⟩
    rcases hmid with ⟨v', hv'⟩
    exact hforf.1 v' hv'

/-- Witness for `normalRound_forfeiture_dominates` on `pointsFixture`: user 1
won with 2 votes, is `fastestWithVote`, but did not vote — and ends at 0. -/
theorem normalRound_forfeiture_dominates_witness :
    (pointsFixture.phrases.map Prod.fst).Nodup ∧
    (getResults pointsFixture).winner = some 1 ∧
    ForfeitSpec pointsFixtureOpts pointsFixture :=
  ⟨by decide, by decide,
    normalRound_forfeiture_dominates pointsFixtureOpts pointsFixture 1
      (by decide) (by decide)⟩

/-! ### Claim C6: submitPhrase

The bridge from the JS acronym computation to the spec's "first character of
each whitespace-separated token" needs that, on a NONEMPTY normalized text,
`split(' ')` produces no empty token: the normalized text has no leading
space, no trailing space and no space run. -/

/-- `collapseWs true` never emits a leading space. -/
theorem collapse_head_true (l : List Char) : (collapseWs true l).head? ≠ some ' ' := by
  induction l with
  | nil => simp [collapseWs]
  | cons c rest ih =>
      unfold collapseWs
      by_cases hc : c = ' '
      · rw [if_pos hc, if_pos rfl]
        exact ih
      · rw [if_neg hc]
        simp only [List.head?_cons]
        exact fun h => hc (Option.some.inj h)

/-- `collapseWs` output has no two adjacent spaces. -/
theorem collapse_chain (l : List Char) : ∀ b, List.Chain' noTwoSp (collapseWs b l) := by
  induction l with
  | nil => intro b; simp [collapseWs]
  | cons c rest ih =>
      intro b
      unfold collapseWs
      by_cases hc : c = ' '
      · rw [if_pos hc]
        by_cases hb : b = true
        · rw [if_pos hb]
          exact ih true
        · rw [if_neg hb]
          rw [List.chain'_cons']
          refine ⟨?_, ih true⟩
          intro y hy hcon
          rw [Option.mem_def] at hy
          exact collapse_head_true rest (by rw [hy, hcon.2])
      · rw [if_neg hc]
        rw [List.chain'_cons']
        refine ⟨?_, ih false⟩
        intro y _ hcon
        exact hc hcon.1

/-- Every `collapseWs` output character occurs in the input or is a space. -/
theorem collapse_subset (l : List Char) :
    ∀ b, ∀ x ∈ collapseWs b l, x ∈ l := by
  induction l with
  | nil => intro b x hx; simp [collapseWs] at hx
  | cons c rest ih =>
      intro b x hx
      unfold collapseWs at hx
      by_cases hc : c = ' '
      · rw [if_pos hc] at hx
        by_cases hb : b = true
        · rw [if_pos hb] at hx
          exact List.mem_cons_of_mem c (ih true x hx)
        · rw [if_neg hb] at hx
          rcases List.mem_cons.mp hx with h | h
          · rw [h, ← hc]
            exact List.mem_cons_self c rest
          · exact List.mem_cons_of_mem c (ih true x h)
      · rw [if_neg hc] at hx
        rcases List.mem_cons.mp hx with h | h
        · rw [h]
          exact List.mem_cons_self c rest
        · exact List.mem_cons_of_mem c (ih false x h)

/-- The allowed character class contains no whitespace. -/
theorem allowed_not_ws (c : Char) (h : isAllowedChar c = true) : isWsChar c = false := by
  unfold isAllowedChar at h
  unfold isWsChar
  rw [decide_eq_true_eq] at h
  simp only [Bool.or_eq_false_iff, decide_eq_false_iff_not]
  omega

/-- After the character replacement, the only whitespace character left is
the space. -/
theorem mapped_only_space (s : String) :
    ∀ c ∈ (s.data.map Char.toUpper).map (fun c => if isAllowedChar c then c else ' '),
      isWsChar c = true → c = ' ' := by
  intro c hc hws
  rcases List.mem_map.mp hc with ⟨c', _, hc'⟩
  by_cases ha : isAllowedChar c'
  · rw [if_pos ha] at hc'
    rw [← hc'] at hws
    rw [allowed_not_ws c' ha] at hws
    cases hws
  · rw [if_neg ha] at hc'
    exact hc'.symm

theorem space_isWs : isWsChar ' ' = true := by decide

/-- `dropLeadWs` keeps the no-double-space shape and removes the only
possible leading space. -/
theorem dropLeadWs_facts (l : List Char) (hws : ∀ c ∈ l, isWsChar c = true → c = ' ')
    (hch : List.Chain' noTwoSp l) :
    List.Chain' noTwoSp (dropLeadWs l) ∧ (dropLeadWs l).head? ≠ some ' ' ∧
      (∀ c ∈ dropLeadWs l, isWsChar c = true → c = ' ') := by
  cases l with
  | nil => exact ⟨List.chain'_nil, by simp [dropLeadWs], by simp [dropLeadWs]⟩
  | cons c rest =>
      by_cases hc : isWsChar c
      · have hcsp : c = ' ' := hws c (List.mem_cons_self c rest) hc
        have hres : dropLeadWs (c :: rest) = rest := by
          unfold dropLeadWs
          dsimp only
          rw [if_pos hc]
        rw [hres]
        refine ⟨(List.chain'_cons'.mp hch).2, ?_, ?_⟩
        · intro heq
          exact (List.chain'_cons'.mp hch).1 ' ' heq ⟨hcsp, rfl⟩
        · intro x hx
          exact hws x (List.mem_cons_of_mem c hx)
      · have hres : dropLeadWs (c :: rest) = c :: rest := by
          unfold dropLeadWs
          dsimp only
          rw [if_neg hc]
        rw [hres]
        refine ⟨hch, ?_, hws⟩
        simp only [List.head?_cons]
        intro heq
        exact hc ((Option.some.inj heq) ▸ space_isWs)

/-- `dropTrailWs` keeps the shape and removes the only possible trailing
space. -/
theorem dropTrailWs_facts (l : List Char) (hws : ∀ c ∈ l, isWsChar c = true → c = ' ')
    (hch : List.Chain' noTwoSp l) (hhd : l.head? ≠ some ' ') :
    List.Chain' noTwoSp (dropTrailWs l) ∧ (dropTrailWs l).head? ≠ some ' ' ∧
      (dropTrailWs l).getLast? ≠ some ' ' := by
  cases hrev : l.reverse with
  | nil =>
      have hl : l = [] := List.reverse_eq_nil_iff.mp hrev
      subst hl
      exact ⟨List.chain'_nil, by simp [dropTrailWs], by simp [dropTrailWs]⟩
  | cons c rest =>
      have hl : l = rest.reverse ++ [c] := List.reverse_eq_cons_iff.mp hrev
      have hres : dropTrailWs l = if isWsChar c then rest.reverse else l := by
        unfold dropTrailWs
        rw [hrev]
      rw [hres]
      by_cases hc : isWsChar c
      · rw [if_pos hc]
        have hcsp : c = ' ' := by
          refine hws c ?_ hc
          rw [hl]
          exact List.mem_append.mpr (Or.inr (List.mem_singleton.mpr rfl))
        refine ⟨?_, ?_, ?_⟩
        · have := hch
          rw [hl] at this
          exact this.left_of_append
        · cases hrr : rest.reverse with
          | nil => simp
          | cons x xs =>
              have hlhd : l.head? = some x := by
                rw [hl, hrr]
                rfl
              simp only [hrr, List.head?_cons]
              intro heq
              exact hhd (by rw [hlhd, Option.some.inj heq])
        · rw [List.getLast?_reverse]
          have hchr : List.Chain' noTwoSp l.reverse := by
            rw [List.chain'_reverse]
            refine hch.imp ?_
            intro a b hab hcon
            exact hab ⟨hcon.2, hcon.1⟩
          rw [hrev] at hchr
          intro heq
          exact (List.chain'_cons'.mp hchr).1 ' ' heq ⟨hcsp, rfl⟩
      · rw [if_neg hc]
        refine ⟨hch, hhd, ?_⟩
        have hlast : l.getLast? = some c := by
          rw [← List.head?_reverse, hrev]
          rfl
        rw [hlast]
        intro heq
        exact hc ((Option.some.inj heq) ▸ space_isWs)

/-- For a no-double-space list with no trailing space, `split(' ')` yields a
first token and only nonempty later tokens, the first being nonempty as soon
as the list is nonempty with no leading space. -/
theorem splitSp_shape (l : List Char) (hch : List.Chain' noTwoSp l)
    (hlast : l.getLast? ≠ some ' ') :
    ∃ first rest, splitSp l = first :: rest ∧ (∀ w ∈ rest, w ≠ []) ∧
      ((l.head? ≠ some ' ' ∧ l ≠ []) → first ≠ []) := by
  induction l with
  | nil =>
      exact ⟨[], [], rfl, by simp, fun h => absurd rfl h.2⟩
  | cons c t ih =>
      cases t with
      | nil =>
          have hc : c ≠ ' ' := by
            intro hcsp
            exact hlast (by rw [hcsp]; rfl)
          refine ⟨[c], [], ?_, by simp, fun _ => by simp⟩
          simp [splitSp, hc]
      | cons c2 t2 =>
          have hlast' : (c2 :: t2).getLast? ≠ some ' ' := by
            rw [← List.getLast?_cons_cons (a := c)]
            exact hlast
          have hch' : List.Chain' noTwoSp (c2 :: t2) := (List.chain'_cons'.mp hch).2
          rcases ih hch' hlast' with ⟨ft, rt, hsp, hrt, hft⟩
          by_cases hc : c = ' '
          · have hc2 : c2 ≠ ' ' := by
              intro hc2sp
              exact (List.chain'_cons'.mp hch).1 c2 (by rfl) ⟨hc, hc2sp⟩
            have hftne : ft ≠ [] := hft ⟨by simpa using hc2, by simp⟩
            refine ⟨[], ft :: rt, ?_, ?_, ?_⟩
            · show splitSp (c :: c2 :: t2) = [] :: ft :: rt
              unfold splitSp
              rw [hsp]
              dsimp only
              rw [if_pos hc]
            · intro w hw
              rcases List.mem_cons.mp hw with h | h
              · rw [h]; exact hftne
              · exact hrt w h
            · intro hcon
              exfalso
              apply hcon.1
              rw [hc]
              rfl
          · refine ⟨c :: ft, rt, ?_, hrt, fun _ => by simp⟩
            show splitSp (c :: c2 :: t2) = (c :: ft) :: rt
            unfold splitSp
            rw [hsp]
            dsimp only
            rw [if_neg hc]

/-- On token lists without empty tokens the JS fold agrees with the spec's
first-character concatenation. -/
theorem jsAcroOf_eq_filterMap (ws : List (List Char)) (h : ∀ w ∈ ws, w ≠ []) :
    jsAcroOf ws = ws.filterMap List.head? := by
  induction ws with
  | nil => rfl
  | cons w rest ih =>
      cases hw : w with
      | nil => exact absurd hw (h w (List.mem_cons_self w rest))
      | cons c cs =>
          unfold jsAcroOf
          rw [List.filterMap_cons]
          simp only [List.head?_cons]
          rw [ih (fun x hx => h x (List.mem_cons_of_mem w hx))]
          rfl

/-- On every input whose normalization is nonempty, the code's acronym is the
spec's acronym. -/
theorem jsAcro_eq_specAcro (s : String) (h : normalizeText s ≠ []) :
    jsAcro s = specAcro s := by
  unfold jsAcro specAcro
  have hcoll := collapse_chain
    ((s.data.map Char.toUpper).map (fun c => if isAllowedChar c then c else ' ')) false
  have hws1 : ∀ c ∈ collapseWs false
      ((s.data.map Char.toUpper).map (fun c => if isAllowedChar c then c else ' ')),
      isWsChar c = true → c = ' ' := by
    intro c hc
    exact mapped_only_space s c (collapse_subset _ false c hc)
  have h1 := dropLeadWs_facts _ hws1 hcoll
  have h2 := dropTrailWs_facts _ h1.2.2 h1.1 h1.2.1
  have hnorm : normalizeText s =
      dropTrailWs (dropLeadWs (collapseWs false
        ((s.data.map Char.toUpper).map (fun c => if isAllowedChar c then c else ' ')))) := rfl
  rcases splitSp_shape (normalizeText s) (hnorm ▸ h2.1) (hnorm ▸ h2.2.2)
    with ⟨first, rest, hsp, hrest, hfirst⟩
  have hne : ∀ w ∈ splitSp (normalizeText s), w ≠ [] := by
    intro w hw
    rw [hsp] at hw
    rcases List.mem_cons.mp hw with h' | h'
    · rw [h']
      exact hfirst ⟨hnorm ▸ h2.2.1, h⟩
    · exact hrest w h'
  exact congrArg String.mk (jsAcroOf_eq_filterMap _ hne)

/-- `submitPhrase` in the submission phase, branch by branch. -/
theorem submitPhrase_eq (st : RoundState) (userId : Nat) (phrase : String) (now : Nat)
    (h : st.phase = Phase.acroOpen) :
    submitPhrase st userId phrase now =
      if jsAcro phrase = st.acro then
        ({ st with
            phrases := aset st.phrases userId (trimOneStr phrase),
            submitTimes := fun u => if u = userId then now else st.submitTimes u },
          some (.phraseAccepted userId (!ahasKey st.phrases userId)))
      else (st, some (.phraseRejected userId (jsAcro phrase))) := by
  unfold submitPhrase
  rw [if_pos h]

/-- Claim C6 (amended): in the submission phase a phrase is accepted exactly
when the JS-computed acronym equals the round's acronym; acceptance stores
the once-trimmed phrase and the timestamp for that user only, rejection
signals the computed acronym and changes nothing; and on every input whose
normalization is NONEMPTY the computed acronym is the spec-described
concatenation of token first characters.  (An input normalizing to the empty
string is the counterexample: JS computes the artifact string
`"undefined"`.) -/
theorem round_submitPhrase_amended (st : RoundState) (userId : Nat) (phrase : String)
    (now : Nat) (h : st.phase = Phase.acroOpen) : PhraseSubmitSpec st userId phrase now := by
  unfold PhraseSubmitSpec
  rw [submitPhrase_eq st userId phrase now h]
  refine ⟨?_, ?_, fun hne => jsAcro_eq_specAcro phrase hne⟩
  · intro hacc
    rw [if_pos hacc]
    refine ⟨rfl, ?_, ?_, ?_, ?_, ?_, rfl, rfl, rfl⟩
    · exact alookup_aset_self _ _ _
    · intro v hv
      exact alookup_aset_of_ne _ _ _ _ hv
    · intro hnd
      exact aset_keys_nodup _ _ _ hnd
    · simp
    · intro v hv
      simp [hv]
  · intro hrej
    rw [if_neg hrej]
    exact ⟨rfl, rfl⟩

/-- Witness for `round_submitPhrase_amended`: "Eat more chicken!" against
acronym EMC is accepted as a first submission at time 42. -/
theorem round_submitPhrase_amended_witness :
    acroFixture.phase = Phase.acroOpen ∧
    PhraseSubmitSpec acroFixture 3 "Eat more chicken!" 42 :=
  ⟨rfl, round_submitPhrase_amended acroFixture 3 "Eat more chicken!" 42 rfl⟩

/-- Claim C6 counterexample: the input `"!!!"` normalizes to the empty
string; JS `"".split(' ')` yields one empty token, `word[0]` is `undefined`,
and the rejection signal carries the artifact acronym `"undefined"` — not the
empty concatenation of token first characters the claim describes. -/
theorem round_submitPhrase_counterexample :
    (submitPhrase acroFixture 0 "!!!" 5).2 =
      some (.phraseRejected 0 "undefined") ∧
    jsAcro "!!!" = "undefined" ∧
    specAcro "!!!" = "" ∧
    ("undefined" : String) ≠ "" := by
  refine ⟨?_, by decide, by decide, by decide⟩
  decide

end Acro

